import Mathlib

/-!
Verification of the patch-server's version resolver and request handler.

The development shallowly embeds the Rust sources:
* `src/main.rs` — `PatchProvider::collect_necessary_files`, `get_latest_version_in`,
  `get_latest_version_in_up_to`, `SocketCoordinator::accept_patch`'s port computation,
  and the `PatchRequest` arm of `handle_client`;
* `src/protocol.rs` — the `PatchResult` / `PatchError` / `PatchFile` response types.

Machine integers (`u16`, `u32`) are embedded as `Nat` with explicit `% 2^w` at the
points where the source truncates or wraps.  Filesystem paths (`PathBuf`) are lists
of path components; the filesystem itself (used only for file sizes) is a parameter
`PathBuf → Option Nat`, `none` standing for a failed `fs::metadata` lookup.
Operations whose Rust original can panic (`unwrap`) are embedded in `Option`.
-/

/-- Embedding of Rust's `PathBuf` for the relative paths the server handles:
the list of path components, e.g. `⟨["dir", "a.txt"]⟩` for `dir/a.txt` and
`⟨["a.txt"]⟩` for the bare filename `a.txt`.  The empty list is the empty path. -/
structure PathBuf where
  components : List String
deriving DecidableEq, Repr

/-- Rust `Path::parent`: drops the final component; `none` for the empty path.
Note that for a bare one-component relative path such as `a.txt` this returns
`some ⟨[]⟩` (Rust returns `Some("")`), not `none`. -/
def PathBuf.parent (p : PathBuf) : Option PathBuf :=
  match p.components with
  | [] => none
  | cs => some ⟨cs.dropLast⟩

/-- Rust `Path::file_name`: the final component, `none` for the empty path. -/
def PathBuf.fileName (p : PathBuf) : Option String :=
  p.components.getLast?

/-- Rust `Path::to_str` on a relative path made of plain components:
components joined by `/` (always succeeds in this embedding). -/
def PathBuf.toStr (p : PathBuf) : String :=
  String.intercalate "/" p.components

/-- Embedding of `PatchFileserver` from `main.rs`: static download-host description. -/
structure PatchFileserver where
  ip : String
  host : String
  base_path : String
deriving DecidableEq, Repr

/-- Embedding of `Patch` from `main.rs`: a version number (`u16`) and the relative paths it touches. -/
structure Patch where
  version : Nat
  files : List PathBuf
deriving DecidableEq, Repr

/-- Embedding of `PatchProvider` from `main.rs`.  The `RwLock` is dropped: the catalog is
read-only during resolution, so a plain list models the locked snapshot. -/
structure PatchProvider where
  patches : List Patch
  patch_dir : PathBuf
  server : PatchFileserver

/-- Embedding of `PatchFile` from `main.rs` (the resolver's result element):
a relative path plus the patch version supplying it. -/
structure PatchFile where
  file : PathBuf
  patch : Nat
deriving DecidableEq, Repr

namespace protocol

/-- Embedding of `protocol::PatchFile` from `protocol.rs`: one wire entry of an `Update` response. -/
structure PatchFile where
  file_id : Nat
  filename : String
  file_path : String
  size : Nat
  in_pk2 : Bool
deriving DecidableEq, Repr

/-- Embedding of `protocol::PatchError` from `protocol.rs`. -/
inductive PatchError where
  | InvalidVersion
  | Update (server_ip : String) (server_port : Nat) (current_version : Nat)
      (patch_files : List PatchFile) (http_server : String)
  | Offline
  | InvalidClient
  | PatchDisabled
deriving DecidableEq, Repr

/-- Embedding of `protocol::PatchResult` from `protocol.rs`. -/
inductive PatchResult where
  | UpToDate (unknown : Nat)
  | Problem (error : PatchError)
deriving DecidableEq, Repr

/-- The wire entries carried by a result, `[]` unless it is `Problem (Update ...)`. -/
def PatchResult.updateFiles : PatchResult → List PatchFile
  | .Problem (.Update _ _ _ files _) => files
  | _ => []

end protocol

/-- Embedding of `get_latest_version_in` from `main.rs`: scan `patches` from the back and
return the version of the first patch mentioning `file`. -/
def get_latest_version_in (file : PathBuf) (patches : List Patch) : Option Nat :=
  (patches.reverse.find? (fun p => decide (file ∈ p.files))).map (fun p => p.version)

/-- Embedding of `get_latest_version_in_up_to` from `main.rs`: scan `patches` from the back and
return the version of the first patch with `version ≤ min_version` mentioning `file`. -/
def get_latest_version_in_up_to (file : PathBuf) (patches : List Patch)
    (min_version : Nat) : Option Nat :=
  (patches.reverse.find?
      (fun p => decide (p.version ≤ min_version ∧ file ∈ p.files))).map
    (fun p => p.version)

/-- Embedding of `PatchProvider::collect_necessary_files` from `main.rs`.  The Rust code gathers
the touched files into a `HashSet`; here `List.dedup` plays that role (the claims
about the result are order-insensitive, and `dedup` preserves the set of elements
while making them distinct, as the `HashSet` does). -/
def PatchProvider.collect_necessary_files (provider : PatchProvider)
    (current target : Nat) : List PatchFile :=
  let patches := provider.patches
  if current > target then
    let files_to_revert :=
      ((patches.filter (fun p => decide (p.version > target ∧ p.version ≤ current))).flatMap
        (fun p => p.files)).dedup
    files_to_revert.filterMap (fun file =>
      (get_latest_version_in_up_to file patches target).map
        (fun version => PatchFile.mk file version))
  else
    let applicable_versions :=
      patches.filter (fun p => decide (p.version > current ∧ p.version ≤ target))
    let all_files := (applicable_versions.flatMap (fun p => p.files)).dedup
    all_files.filterMap (fun file =>
      (get_latest_version_in file applicable_versions).map
        (fun version => PatchFile.mk file version))

/-- Embedding of `get_filesize_of` from `main.rs`: look the file up under
`patch_dir/<patch>/<file>` in the filesystem `fsys` (a parameter standing for
`fs::metadata(..).len()`, `none` when the metadata lookup fails) and truncate
the `u64` length to `u32`. -/
def get_filesize_of (fsys : PathBuf → Option Nat) (patch_dir : PathBuf)
    (file : PatchFile) : Option Nat :=
  (fsys ⟨patch_dir.components ++ [toString file.patch] ++ file.file.components⟩).map
    (fun len => len % 4294967296)

/-- The body of the closure in `handle_client` that turns one resolver entry into a
wire `protocol::PatchFile`: `in_pk2` from `Path::parent().is_some()`, the filename
from `Path::file_name().unwrap()` (hence `Option`), the download path
`base_path/<patch>/<file>`, and the truncated size. -/
def mkPatchFile (server : PatchFileserver) (fsys : PathBuf → Option Nat)
    (patch_dir : PathBuf) (index : Nat) (file : PatchFile) :
    Option protocol.PatchFile := do
  let in_pk2 := file.file.parent.isSome
  let filename ← file.file.fileName
  let size ← get_filesize_of fsys patch_dir file
  pure { file_id := index % 4294967296
         filename := filename
         file_path := server.base_path ++ "/" ++ toString file.patch ++ "/" ++ file.file.toStr
         size := size
         in_pk2 := in_pk2 }

/-- The `enumerate().map(..).collect()` pipeline of `handle_client`: build a wire
entry for each resolver result, numbering them from `index`; `none` if any
entry's construction panics in the original. -/
def collectPatchFiles (server : PatchFileserver) (fsys : PathBuf → Option Nat)
    (patch_dir : PathBuf) : Nat → List PatchFile → Option (List protocol.PatchFile)
  | _, [] => some []
  | index, file :: rest => do
    let entry ← mkPatchFile server fsys patch_dir index file
    let entries ← collectPatchFiles server fsys patch_dir (index + 1) rest
    pure (entry :: entries)

/-- The `PatchProtocol::PatchRequest` arm of `handle_client` from `main.rs`:
`target_version` is the endpoint's bound `u16` target, `request_version` the `u32`
version field of the request.  On equality answer `UpToDate { unknown: 0 }`;
otherwise resolve with the request version truncated to `u16`
(`current_version as u16`) and build the `Update` error payload. -/
def handlePatchRequest (provider : PatchProvider) (fsys : PathBuf → Option Nat)
    (target_version request_version : Nat) : Option protocol.PatchResult :=
  if request_version = target_version then
    some (protocol.PatchResult.UpToDate 0)
  else
    let patches := provider.collect_necessary_files (request_version % 65536) target_version
    (collectPatchFiles provider.server fsys provider.patch_dir 0 patches).map
      (fun files => protocol.PatchResult.Problem
        (protocol.PatchError.Update provider.server.ip 80 target_version files
          provider.server.host))

/-- The port computation of `SocketCoordinator::accept_patch` from `main.rs`:
`let port = 32000 + patch;` is a `u16` addition, so it wraps modulo `2^16`. -/
def accept_patch_port (patch : Nat) : Nat :=
  (32000 + patch) % 65536

/-- The versions, within the window `current < version ≤ target`, of the patches
mentioning `f` — the vocabulary for the upgrade claims. -/
def rangeMentioningVersions (patches : List Patch) (current target : Nat)
    (f : PathBuf) : List Nat :=
  (patches.filter
      (fun p => decide (current < p.version ∧ p.version ≤ target ∧ f ∈ p.files))).map
    (fun p => p.version)

/-- The versions `≤ bound` of the patches mentioning `f` — the vocabulary for the
downgrade claims. -/
def upToMentioningVersions (patches : List Patch) (bound : Nat) (f : PathBuf) : List Nat :=
  (patches.filter (fun p => decide (p.version ≤ bound ∧ f ∈ p.files))).map
    (fun p => p.version)

/-- Modelled from the spec: the claim's reading of the `in_pk2` flag, "the relative
path includes a subdirectory component", i.e. there is at least one directory
component before the filename. -/
def spec_pathIncludesSubdirectory (p : PathBuf) : Bool :=
  decide (2 ≤ p.components.length)

/-- The three-patch catalog of the spec's concrete scenarios A and B:
`{1: [a.txt]}`, `{2: [a.txt, b.txt]}`, `{3: [b.txt]}`. -/
def aTxt : PathBuf := ⟨["a.txt"]⟩

/-- The path `b.txt` of the concrete scenarios. -/
def bTxt : PathBuf := ⟨["b.txt"]⟩

/-- The scenario catalog as a provider. -/
def scenarioProvider : PatchProvider where
  patches := [⟨1, [aTxt]⟩, ⟨2, [aTxt, bTxt]⟩, ⟨3, [bTxt]⟩]
  patch_dir := ⟨["patches"]⟩
  server := { ip := "127.0.0.1", host := "localhost", base_path := "" }

/-- A single-patch provider `{1: [a.txt]}` used for handler-level examples. -/
def bareProvider : PatchProvider where
  patches := [⟨1, [aTxt]⟩]
  patch_dir := ⟨["patches"]⟩
  server := { ip := "127.0.0.1", host := "localhost", base_path := "" }

/-- A filesystem in which every file exists and has 7 bytes. -/
def sevenByteFs : PathBuf → Option Nat := fun _ => some 7

/-! ### Generic lemmas about the resolver's building blocks -/

/-- In a list whose versions are sorted descending, the first `find?` hit has the
greatest version among all hits. -/
lemma find?_version_max {q : Patch → Bool} :
    ∀ {l : List Patch}, l.Pairwise (fun a b => b.version ≤ a.version) →
      ∀ {p : Patch}, l.find? q = some p → ∀ x ∈ l, q x = true → x.version ≤ p.version := by
  intro l
  induction l with
  | nil =>
    intro _ p hp
    simp [List.find?] at hp
  | cons a t ih =>
    intro hpw p hp x hx hqx
    rcases List.pairwise_cons.mp hpw with ⟨ha, ht⟩
    by_cases hqa : q a = true
    · rw [List.find?_cons_of_pos _ hqa] at hp
      cases hp
      rcases List.mem_cons.mp hx with rfl | hxt
      · exact le_refl _
      · exact ha x hxt
    · rw [List.find?_cons_of_neg _ hqa] at hp
      rcases List.mem_cons.mp hx with rfl | hxt
      · exact absurd hqx hqa
      · exact ih ht hp x hxt hqx

/-- When every produced entry carries its source path in `file`, a `Nodup` source
list containing `f` (with `g f` defined) yields exactly one entry for `f`. -/
lemma countP_filterMap_file_eq_one {g : PathBuf → Option PatchFile}
    (hg : ∀ x e, g x = some e → e.file = x) (f : PathBuf) :
    ∀ {l : List PathBuf}, l.Nodup → f ∈ l → (g f).isSome →
      (l.filterMap g).countP (fun e => decide (e.file = f)) = 1 := by
  intro l
  induction l with
  | nil =>
    intro _ h
    simp at h
  | cons a t ih =>
    intro hnd hmem hsome
    rcases List.nodup_cons.mp hnd with ⟨hat, hndt⟩
    rcases List.mem_cons.mp hmem with rfl | hmt
    · rcases Option.isSome_iff_exists.mp hsome with ⟨e, he⟩
      rw [List.filterMap_cons_some he, List.countP_cons]
      have hef : e.file = f := hg _ _ he
      rw [if_pos (by simp [hef])]
      have hzero : (t.filterMap g).countP (fun e => decide (e.file = f)) = 0 := by
        rw [List.countP_eq_zero]
        intro e' he'
        rcases List.mem_filterMap.mp he' with ⟨x, hxt, hgx⟩
        have hex : e'.file = x := hg _ _ hgx
        simp only [hex, decide_eq_true_eq]
        intro hxf
        exact hat (hxf ▸ hxt)
      omega
    · have haf : a ≠ f := fun h => hat (h ▸ hmt)
      cases hga : g a with
      | none =>
        rw [List.filterMap_cons_none hga]
        exact ih hndt hmt hsome
      | some e =>
        rw [List.filterMap_cons_some hga, List.countP_cons]
        have hea : e.file = a := hg _ _ hga
        rw [if_neg (by simp [hea, haf])]
        have := ih hndt hmt hsome
        omega

/-- When every produced entry carries its source path in `file` and `g f` is
undefined, no entry for `f` is produced. -/
lemma countP_filterMap_file_eq_zero {g : PathBuf → Option PatchFile}
    (hg : ∀ x e, g x = some e → e.file = x) (f : PathBuf) {l : List PathBuf}
    (h : g f = none) :
    (l.filterMap g).countP (fun e => decide (e.file = f)) = 0 := by
  rw [List.countP_eq_zero]
  intro e he
  rcases List.mem_filterMap.mp he with ⟨x, _, hgx⟩
  have hex : e.file = x := hg _ _ hgx
  simp only [hex, decide_eq_true_eq]
  intro hxf
  rw [hxf, h] at hgx
  exact Option.noConfusion hgx

/-- The upgrade branch of `collect_necessary_files`, written out. -/
lemma collect_upgrade_eq (provider : PatchProvider) (current target : Nat)
    (h : ¬ current > target) :
    provider.collect_necessary_files current target =
      ((provider.patches.filter
          (fun p => decide (p.version > current ∧ p.version ≤ target))).flatMap
          (fun p => p.files)).dedup.filterMap (fun file =>
        (get_latest_version_in file
            (provider.patches.filter
              (fun p => decide (p.version > current ∧ p.version ≤ target)))).map
          (fun version => PatchFile.mk file version)) := by
  simp only [PatchProvider.collect_necessary_files]
  rw [if_neg h]

/-- The downgrade branch of `collect_necessary_files`, written out. -/
lemma collect_downgrade_eq (provider : PatchProvider) (current target : Nat)
    (h : current > target) :
    provider.collect_necessary_files current target =
      ((provider.patches.filter
          (fun p => decide (p.version > target ∧ p.version ≤ current))).flatMap
          (fun p => p.files)).dedup.filterMap (fun file =>
        (get_latest_version_in_up_to file provider.patches target).map
          (fun version => PatchFile.mk file version)) := by
  simp only [PatchProvider.collect_necessary_files]
  rw [if_pos h]

/-- Membership in the filtered applicable-patch list, spelled out. -/
lemma mem_filter_range {patches : List Patch} {lo hi : Nat} {p : Patch} :
    p ∈ patches.filter (fun p => decide (p.version > lo ∧ p.version ≤ hi)) ↔
      p ∈ patches ∧ lo < p.version ∧ p.version ≤ hi := by
  rw [List.mem_filter, decide_eq_true_eq]

/-- C1: for a catalog sorted ascending by version and `current < target`, every
file mentioned by a patch with `current < version ≤ target` appears exactly once
in `collect_necessary_files current target`, paired with the highest patch
version in that range mentioning it. -/
theorem collect_upgrade_exactly_once_highest (provider : PatchProvider)
    (current target : Nat)
    (hsorted : provider.patches.Sorted (fun a b => a.version ≤ b.version))
    (hlt : current < target) (f : PathBuf)
    (hf : ∃ p ∈ provider.patches, current < p.version ∧ p.version ≤ target ∧ f ∈ p.files) :
    ((provider.collect_necessary_files current target).countP
        (fun e => decide (e.file = f)) = 1)
    ∧ ∀ e ∈ provider.collect_necessary_files current target, e.file = f →
        e.patch ∈ rangeMentioningVersions provider.patches current target f
        ∧ ∀ v ∈ rangeMentioningVersions provider.patches current target f, v ≤ e.patch := by
  have hnr : ¬ current > target := by omega
  rw [collect_upgrade_eq provider current target hnr]
  set A := provider.patches.filter (fun p => decide (p.version > current ∧ p.version ≤ target))
    with hA
  set g := fun file =>
    (get_latest_version_in file A).map (fun version => PatchFile.mk file version) with hgdef
  have hg : ∀ x e, g x = some e → e.file = x := by
    intro x e he
    rw [hgdef] at he
    rcases Option.map_eq_some'.mp he with ⟨v, _, hmk⟩
    rw [← hmk]
  have hApw : A.reverse.Pairwise (fun a b => b.version ≤ a.version) := by
    rw [List.pairwise_reverse]
    exact hsorted.filter _
  -- the witnessing applicable patch for f
  rcases hf with ⟨p, hpmem, hp1, hp2, hp3⟩
  have hpA : p ∈ A := mem_filter_range.mpr ⟨hpmem, hp1, hp2⟩
  have hfmem : f ∈ (A.flatMap (fun p => p.files)).dedup := by
    rw [List.mem_dedup, List.mem_flatMap]
    exact ⟨p, hpA, hp3⟩
  have hsome : (g f).isSome := by
    rw [hgdef]
    simp only [get_latest_version_in, Option.isSome_map']
    rw [List.find?_isSome]
    exact ⟨p, List.mem_reverse.mpr hpA, by simpa using hp3⟩
  refine ⟨countP_filterMap_file_eq_one hg f (List.nodup_dedup _) hfmem hsome, ?_⟩
  intro e he hef
  rcases List.mem_filterMap.mp he with ⟨x, _, hgx⟩
  have hex : e.file = x := hg _ _ hgx
  have hxf : x = f := by rw [← hex, hef]
  rw [hxf, hgdef] at hgx
  rcases Option.map_eq_some'.mp hgx with ⟨v, hv, hmk⟩
  rcases Option.map_eq_some'.mp hv with ⟨p0, hfind, hver⟩
  have hep : e.patch = p0.version := by rw [← hmk, ← hver]
  have hp0q : f ∈ p0.files := by
    have := List.find?_some hfind
    simpa using this
  have hp0A : p0 ∈ A := List.mem_reverse.mp (List.mem_of_find?_eq_some hfind)
  rcases mem_filter_range.mp hp0A with ⟨hp0mem, hp0lo, hp0hi⟩
  constructor
  · rw [rangeMentioningVersions, List.mem_map]
    refine ⟨p0, ?_, hep.symm⟩
    rw [List.mem_filter, decide_eq_true_eq]
    exact ⟨hp0mem, hp0lo, hp0hi, hp0q⟩
  · intro v' hv'
    rw [rangeMentioningVersions, List.mem_map] at hv'
    rcases hv' with ⟨p', hp'mem, hp'ver⟩
    rw [List.mem_filter, decide_eq_true_eq] at hp'mem
    rcases hp'mem with ⟨hp'cat, hp'lo, hp'hi, hp'f⟩
    have hp'A : p' ∈ A.reverse := List.mem_reverse.mpr (mem_filter_range.mpr ⟨hp'cat, hp'lo, hp'hi⟩)
    have := find?_version_max hApw hfind p' hp'A (by simpa using hp'f)
    omega

/-- Witness for C1 on the scenario catalog: upgrading 1 → 3, `b.txt` appears
exactly once, paired with the highest in-range version mentioning it. -/
theorem collect_upgrade_exactly_once_highest_witness :
    ((scenarioProvider.collect_necessary_files 1 3).countP
        (fun e => decide (e.file = bTxt)) = 1)
    ∧ ∀ e ∈ scenarioProvider.collect_necessary_files 1 3, e.file = bTxt →
        e.patch ∈ rangeMentioningVersions scenarioProvider.patches 1 3 bTxt
        ∧ ∀ v ∈ rangeMentioningVersions scenarioProvider.patches 1 3 bTxt, v ≤ e.patch :=
  collect_upgrade_exactly_once_highest scenarioProvider 1 3 (by decide) (by decide) bTxt
    ⟨⟨3, [bTxt]⟩, by decide⟩

/-- C2: for a catalog sorted ascending by version and `target < current`, every
file mentioned by a patch with `target < version ≤ current` appears exactly once
in `collect_necessary_files current target` paired with the highest patch version
`≤ target` mentioning it — or is absent when no patch `≤ target` mentions it —
and no other file appears. -/
theorem collect_downgrade_revert_spec (provider : PatchProvider)
    (current target : Nat)
    (hsorted : provider.patches.Sorted (fun a b => a.version ≤ b.version))
    (hgt : target < current) (f : PathBuf)
    (hf : ∃ p ∈ provider.patches, target < p.version ∧ p.version ≤ current ∧ f ∈ p.files) :
    ((∃ p ∈ provider.patches, p.version ≤ target ∧ f ∈ p.files) →
        ((provider.collect_necessary_files current target).countP
            (fun e => decide (e.file = f)) = 1)
        ∧ ∀ e ∈ provider.collect_necessary_files current target, e.file = f →
            e.patch ∈ upToMentioningVersions provider.patches target f
            ∧ ∀ v ∈ upToMentioningVersions provider.patches target f, v ≤ e.patch)
    ∧ ((¬ ∃ p ∈ provider.patches, p.version ≤ target ∧ f ∈ p.files) →
        (provider.collect_necessary_files current target).countP
          (fun e => decide (e.file = f)) = 0)
    ∧ ∀ e ∈ provider.collect_necessary_files current target,
        ∃ p ∈ provider.patches, target < p.version ∧ p.version ≤ current ∧ e.file ∈ p.files := by
  rw [collect_downgrade_eq provider current target hgt]
  set g := fun file =>
    (get_latest_version_in_up_to file provider.patches target).map
      (fun version => PatchFile.mk file version) with hgdef
  have hg : ∀ x e, g x = some e → e.file = x := by
    intro x e he
    rw [hgdef] at he
    rcases Option.map_eq_some'.mp he with ⟨v, _, hmk⟩
    rw [← hmk]
  have hpw : provider.patches.reverse.Pairwise (fun a b => b.version ≤ a.version) := by
    rw [List.pairwise_reverse]
    exact hsorted
  rcases hf with ⟨p, hpmem, hp1, hp2, hp3⟩
  have hfmem : f ∈ ((provider.patches.filter
      (fun p => decide (p.version > target ∧ p.version ≤ current))).flatMap
      (fun p => p.files)).dedup := by
    rw [List.mem_dedup, List.mem_flatMap]
    exact ⟨p, mem_filter_range.mpr ⟨hpmem, hp1, hp2⟩, hp3⟩
  refine ⟨?_, ?_, ?_⟩
  · rintro ⟨q, hqmem, hq1, hq2⟩
    have hsome : (g f).isSome := by
      rw [hgdef]
      simp only [get_latest_version_in_up_to, Option.isSome_map']
      rw [List.find?_isSome]
      exact ⟨q, List.mem_reverse.mpr hqmem, by simp [hq1, hq2]⟩
    refine ⟨countP_filterMap_file_eq_one hg f (List.nodup_dedup _) hfmem hsome, ?_⟩
    intro e he hef
    rcases List.mem_filterMap.mp he with ⟨x, _, hgx⟩
    have hex : e.file = x := hg _ _ hgx
    have hxf : x = f := by rw [← hex, hef]
    rw [hxf, hgdef] at hgx
    rcases Option.map_eq_some'.mp hgx with ⟨v, hv, hmk⟩
    rcases Option.map_eq_some'.mp hv with ⟨p0, hfind, hver⟩
    have hep : e.patch = p0.version := by rw [← hmk, ← hver]
    have hp0q := List.find?_some hfind
    rw [decide_eq_true_eq] at hp0q
    have hp0mem : p0 ∈ provider.patches :=
      List.mem_reverse.mp (List.mem_of_find?_eq_some hfind)
    constructor
    · rw [upToMentioningVersions, List.mem_map]
      refine ⟨p0, ?_, hep.symm⟩
      rw [List.mem_filter, decide_eq_true_eq]
      exact ⟨hp0mem, hp0q⟩
    · intro v' hv'
      rw [upToMentioningVersions, List.mem_map] at hv'
      rcases hv' with ⟨p', hp'mem, hp'ver⟩
      rw [List.mem_filter, decide_eq_true_eq] at hp'mem
      rcases hp'mem with ⟨hp'cat, hp'le, hp'f⟩
      have := find?_version_max hpw hfind p' (List.mem_reverse.mpr hp'cat)
        (by rw [decide_eq_true_eq]; exact ⟨hp'le, hp'f⟩)
      omega
  · intro hnone
    have hgf : g f = none := by
      rw [hgdef]
      simp only [get_latest_version_in_up_to, Option.map_eq_none', List.find?_eq_none]
      intro x hx
      simp only [decide_eq_true_eq]
      intro hcon
      exact hnone ⟨x, List.mem_reverse.mp hx, hcon⟩
    exact countP_filterMap_file_eq_zero hg f hgf
  · intro e he
    rcases List.mem_filterMap.mp he with ⟨x, hx, hgx⟩
    have hex : e.file = x := hg _ _ hgx
    rw [List.mem_dedup, List.mem_flatMap] at hx
    rcases hx with ⟨p', hp'A, hp'f⟩
    rcases mem_filter_range.mp hp'A with ⟨hp'cat, hp'lo, hp'hi⟩
    refine ⟨p', hp'cat, hp'lo, hp'hi, ?_⟩
    rw [hex]
    exact hp'f

/-- Witness for C2 on the scenario catalog: downgrading 3 → 1, `a.txt` reverts to
version 1 exactly once, and every result entry was touched in `(1, 3]`. -/
theorem collect_downgrade_revert_spec_witness :
    ((∃ p ∈ scenarioProvider.patches, p.version ≤ 1 ∧ aTxt ∈ p.files) →
        ((scenarioProvider.collect_necessary_files 3 1).countP
            (fun e => decide (e.file = aTxt)) = 1)
        ∧ ∀ e ∈ scenarioProvider.collect_necessary_files 3 1, e.file = aTxt →
            e.patch ∈ upToMentioningVersions scenarioProvider.patches 1 aTxt
            ∧ ∀ v ∈ upToMentioningVersions scenarioProvider.patches 1 aTxt, v ≤ e.patch)
    ∧ ((¬ ∃ p ∈ scenarioProvider.patches, p.version ≤ 1 ∧ aTxt ∈ p.files) →
        (scenarioProvider.collect_necessary_files 3 1).countP
          (fun e => decide (e.file = aTxt)) = 0)
    ∧ ∀ e ∈ scenarioProvider.collect_necessary_files 3 1,
        ∃ p ∈ scenarioProvider.patches, 1 < p.version ∧ p.version ≤ 3 ∧ e.file ∈ p.files :=
  collect_downgrade_revert_spec scenarioProvider 3 1 (by decide) (by decide) aTxt
    ⟨⟨2, [aTxt, bTxt]⟩, by decide⟩

/-! ### Concrete scenarios and port computation -/

/-- Counterexample to C3 (spec scenario A): upgrading 1 → 3 on the scenario
catalog does NOT pair `a.txt` with version 1 — patch 2 also touches `a.txt`
inside the range `(1, 3]`, so the resolver pairs it with version 2. -/
theorem scenarioA_claim_false :
    PatchFile.mk aTxt 1 ∉ scenarioProvider.collect_necessary_files 1 3
    ∧ PatchFile.mk aTxt 2 ∈ scenarioProvider.collect_necessary_files 1 3 := by
  decide

/-- C3 amended: on the scenario catalog, `collect_necessary_files 1 3` returns
exactly the set `{(a.txt, 2), (b.txt, 3)}`. -/
theorem scenarioA_actual :
    (scenarioProvider.collect_necessary_files 1 3).Perm
      [PatchFile.mk aTxt 2, PatchFile.mk bTxt 3] := by
  decide

/-- Counterexample to C4 (spec scenario B): downgrading 3 → 1 on the scenario
catalog is NOT empty — `a.txt` is touched in `(1, 3]` (by patch 2) and patch 1
mentions it, so it reverts to `(a.txt, 1)`. -/
theorem scenarioB_claim_false :
    scenarioProvider.collect_necessary_files 3 1 ≠ []
    ∧ PatchFile.mk aTxt 1 ∈ scenarioProvider.collect_necessary_files 3 1 := by
  decide

/-- C4 amended: on the scenario catalog, `collect_necessary_files 3 1` returns
exactly the set `{(a.txt, 1)}` (only `b.txt`, first touched at version 2, is
silently excluded). -/
theorem scenarioB_actual :
    (scenarioProvider.collect_necessary_files 3 1).Perm [PatchFile.mk aTxt 1] := by
  decide

/-- Counterexample to C8: the `u16` addition `32000 + patch` wraps modulo
`2^16`, so for patch version 40000 the bound port is 6464, not 72000. -/
theorem accept_patch_port_overflow :
    accept_patch_port 40000 = 6464 ∧ accept_patch_port 40000 ≠ 32000 + 40000 := by
  decide

/-- C8 amended: the endpoint for patch version `V` is bound to port
`(32000 + V) mod 2^16`, which is exactly `32000 + V` whenever the sum fits in
16 bits, i.e. for all `V ≤ 33535`. -/
theorem accept_patch_port_exact (patch : Nat) (h : patch ≤ 33535) :
    accept_patch_port patch = 32000 + patch := by
  unfold accept_patch_port
  omega

/-- Witness for the amended C8 at `V = 5`: port 32005. -/
theorem accept_patch_port_exact_witness : accept_patch_port 5 = 32000 + 5 :=
  accept_patch_port_exact 5 (by decide)

/-! ### The request handler -/

/-- Resolving with `current = target` yields no files: the applicable-patch
window `(current, target]` is empty. -/
lemma collect_equal_eq_nil (provider : PatchProvider) (t : Nat) :
    provider.collect_necessary_files t t = [] := by
  rw [collect_upgrade_eq provider t t (by omega)]
  have hfil : provider.patches.filter (fun p => decide (p.version > t ∧ p.version ≤ t)) = [] := by
    rw [List.filter_eq_nil_iff]
    intro a _
    simp only [decide_eq_true_eq, not_and]
    omega
  rw [hfil]
  rfl

/-- C6: whenever the request's version equals the endpoint's target version, the
handler answers `UpToDate { unknown: 0 }` — for every catalog and filesystem
alike, showing the resolver result is never consulted on this path. -/
theorem uptodate_when_version_equals_target (provider : PatchProvider)
    (fsys : PathBuf → Option Nat) (t : Nat) :
    handlePatchRequest provider fsys t t = some (protocol.PatchResult.UpToDate 0) := by
  simp [handlePatchRequest]

/-- C7: a request version `v ≠ target` reaches the resolver with `v` truncated to
16 bits (`current_version as u16`); in particular when `v % 2^16` equals the
target the handler answers an `Update` with an empty file list, not `UpToDate`. -/
theorem truncated_resolver_and_empty_update (provider : PatchProvider)
    (fsys : PathBuf → Option Nat) (t v : Nat) (hne : v ≠ t) :
    (handlePatchRequest provider fsys t v =
      (collectPatchFiles provider.server fsys provider.patch_dir 0
          (provider.collect_necessary_files (v % 65536) t)).map
        (fun files => protocol.PatchResult.Problem
          (protocol.PatchError.Update provider.server.ip 80 t files provider.server.host)))
    ∧ (v % 65536 = t →
        handlePatchRequest provider fsys t v =
          some (protocol.PatchResult.Problem
            (protocol.PatchError.Update provider.server.ip 80 t [] provider.server.host))) := by
  constructor
  · simp [handlePatchRequest, hne]
  · intro hmod
    simp only [handlePatchRequest]
    rw [if_neg hne, hmod, collect_equal_eq_nil]
    rfl

/-- Witness for C7: target 3, request version `3 + 2^16 = 65539` on the scenario
catalog — the handler sends an empty `Update`, not `UpToDate`. -/
theorem truncated_resolver_witness :
    (handlePatchRequest scenarioProvider sevenByteFs 3 65539 =
      (collectPatchFiles scenarioProvider.server sevenByteFs scenarioProvider.patch_dir 0
          (scenarioProvider.collect_necessary_files (65539 % 65536) 3)).map
        (fun files => protocol.PatchResult.Problem
          (protocol.PatchError.Update scenarioProvider.server.ip 80 3 files
            scenarioProvider.server.host)))
    ∧ (65539 % 65536 = 3 →
        handlePatchRequest scenarioProvider sevenByteFs 3 65539 =
          some (protocol.PatchResult.Problem
            (protocol.PatchError.Update scenarioProvider.server.ip 80 3 []
              scenarioProvider.server.host))) :=
  truncated_resolver_and_empty_update scenarioProvider sevenByteFs 3 65539 (by decide)

/-- C9: every reply the handler produces is either `UpToDate {unknown: 0}` or a
`Problem` whose error is the `Update` variant; `InvalidVersion`, `Offline`,
`InvalidClient` and `PatchDisabled` are never built. -/
theorem response_is_uptodate_or_update (provider : PatchProvider)
    (fsys : PathBuf → Option Nat) (t v : Nat) (r : protocol.PatchResult)
    (h : handlePatchRequest provider fsys t v = some r) :
    r = protocol.PatchResult.UpToDate 0
    ∨ ∃ ip port cv files hs, r = protocol.PatchResult.Problem
        (protocol.PatchError.Update ip port cv files hs) := by
  simp only [handlePatchRequest] at h
  by_cases hve : v = t
  · rw [if_pos hve] at h
    left
    exact (Option.some.inj h).symm
  · rw [if_neg hve] at h
    rcases Option.map_eq_some'.mp h with ⟨files, _, hr⟩
    right
    exact ⟨provider.server.ip, 80, t, files, provider.server.host, hr.symm⟩

/-- Witness for C9 at target 1, request version 1 on the single-patch catalog. -/
theorem response_is_uptodate_or_update_witness :
    protocol.PatchResult.UpToDate 0 = protocol.PatchResult.UpToDate 0
    ∨ ∃ ip port cv files hs, protocol.PatchResult.UpToDate 0 = protocol.PatchResult.Problem
        (protocol.PatchError.Update ip port cv files hs) :=
  response_is_uptodate_or_update bareProvider sevenByteFs 1 1
    (protocol.PatchResult.UpToDate 0) (by rfl)

/-- C10: in every `Update` reply the handler produces, the `server_port` field is
80 and the `current_version` field is the endpoint's target version, regardless
of the version the client reported. -/
theorem update_response_port_and_version (provider : PatchProvider)
    (fsys : PathBuf → Option Nat) (t v : Nat)
    (ip : String) (port cv : Nat) (files : List protocol.PatchFile) (hs : String)
    (h : handlePatchRequest provider fsys t v =
      some (protocol.PatchResult.Problem
        (protocol.PatchError.Update ip port cv files hs))) :
    port = 80 ∧ cv = t := by
  simp only [handlePatchRequest] at h
  by_cases hve : v = t
  · rw [if_pos hve] at h
    exact absurd (Option.some.inj h) (by simp)
  · rw [if_neg hve] at h
    rcases Option.map_eq_some'.mp h with ⟨files', _, hr⟩
    simp only [protocol.PatchResult.Problem.injEq, protocol.PatchError.Update.injEq] at hr
    exact ⟨hr.2.1.symm, hr.2.2.1.symm⟩

lemma parent_isSome_of_fileName (p : PathBuf) (fn : String) (h : p.fileName = some fn) :
    p.parent.isSome = true := by
  unfold PathBuf.fileName at h
  unfold PathBuf.parent
  cases hc : p.components with
  | nil =>
    rw [hc, List.getLast?_nil] at h
    exact Option.noConfusion h
  | cons a t =>
    rfl

lemma mkPatchFile_in_pk2_eq (server : PatchFileserver) (fsys : PathBuf → Option Nat)
    (patch_dir : PathBuf) (index : Nat) (file : PatchFile) (e : protocol.PatchFile)
    (h : mkPatchFile server fsys patch_dir index file = some e) :
    e.in_pk2 = file.file.parent.isSome ∧ file.file.fileName.isSome = true := by
  unfold mkPatchFile at h
  cases hfn : file.file.fileName with
  | none =>
    rw [hfn] at h
    simp at h
  | some fn =>
    rw [hfn] at h
    cases hsz : get_filesize_of fsys patch_dir file with
    | none =>
      rw [hsz] at h
      simp at h
    | some sz =>
      rw [hsz] at h
      simp at h
      rw [← h]
      exact ⟨rfl, rfl⟩

lemma collectPatchFiles_in_pk2 (server : PatchFileserver) (fsys : PathBuf → Option Nat)
    (patch_dir : PathBuf) :
    ∀ (index : Nat) (files : List PatchFile) (entries : List protocol.PatchFile),
      collectPatchFiles server fsys patch_dir index files = some entries →
      ∀ e ∈ entries, e.in_pk2 = true := by
  intro index files
  induction files generalizing index with
  | nil =>
    intro entries h e he
    rw [collectPatchFiles] at h
    rw [← Option.some.inj h] at he
    exact absurd he (List.not_mem_nil e)
  | cons f rest ih =>
    intro entries h e he
    rw [collectPatchFiles] at h
    cases hmk : mkPatchFile server fsys patch_dir index f with
    | none =>
      rw [hmk] at h
      simp at h
    | some entry =>
      rw [hmk] at h
      cases hrest : collectPatchFiles server fsys patch_dir (index + 1) rest with
      | none =>
        rw [hrest] at h
        simp at h
      | some entries' =>
        rw [hrest] at h
        simp at h
        rw [← h] at he
        rcases List.mem_cons.mp he with rfl | he'
        · have := mkPatchFile_in_pk2_eq server fsys patch_dir index f e hmk
          rcases f with ⟨ff, fp⟩
          exact this.1.trans (parent_isSome_of_fileName ff
            (ff.fileName.get this.2) (Option.some_get this.2).symm)
        · exact ih (index + 1) entries' hrest e he'

/-- C5 amended: the `in_pk2` flag is `Path::parent().is_some()`, which is `true`
for every non-empty relative path — including a bare filename, whose Rust parent
is `Some("")`.  Hence every entry of every reply the handler produces carries
`in_pk2 = true`. -/
theorem update_response_in_pk2_always_true (provider : PatchProvider)
    (fsys : PathBuf → Option Nat) (t v : Nat) (r : protocol.PatchResult)
    (e : protocol.PatchFile) (h : handlePatchRequest provider fsys t v = some r)
    (he : e ∈ r.updateFiles) : e.in_pk2 = true := by
  simp only [handlePatchRequest] at h
  by_cases hve : v = t
  · rw [if_pos hve] at h
    rw [← Option.some.inj h] at he
    exact absurd he (List.not_mem_nil e)
  · rw [if_neg hve] at h
    rcases Option.map_eq_some'.mp h with ⟨files, hfiles, hr⟩
    rw [← hr] at he
    exact collectPatchFiles_in_pk2 provider.server fsys provider.patch_dir 0
      (provider.collect_necessary_files (v % 65536) t) files hfiles e he

/-- Witness for the amended C5: the single entry of the concrete reply below
(for the bare filename `a.txt`) indeed has `in_pk2 = true`. -/
theorem update_response_in_pk2_witness :
    (protocol.PatchFile.mk 0 "a.txt" "/1/a.txt" 7 true).in_pk2 = true :=
  update_response_in_pk2_always_true bareProvider sevenByteFs 1 0
    (protocol.PatchResult.Problem
      (protocol.PatchError.Update "127.0.0.1" 80 1
        [protocol.PatchFile.mk 0 "a.txt" "/1/a.txt" 7 true] "localhost"))
    (protocol.PatchFile.mk 0 "a.txt" "/1/a.txt" 7 true) (by decide) (by decide)

/-- Counterexample to C5: for the bare filename `a.txt` (no subdirectory
component) the handler emits `in_pk2 = true`, because Rust's `Path::parent`
returns `Some("")` rather than `None` on a one-component relative path. -/
theorem in_pk2_true_for_bare_filename :
    (handlePatchRequest bareProvider sevenByteFs 1 0).map
        (fun r => r.updateFiles.map (fun e => e.in_pk2)) = some [true]
    ∧ bareProvider.collect_necessary_files 0 1 = [PatchFile.mk aTxt 1]
    ∧ spec_pathIncludesSubdirectory aTxt = false := by
  decide

/-- Witness for C10: the concrete `Update` reply for target 1, request 0 on the
single-patch catalog carries port 80 and current_version 1. -/
theorem update_response_port_and_version_witness : (80 : Nat) = 80 ∧ (1 : Nat) = 1 :=
  update_response_port_and_version bareProvider sevenByteFs 1 0 "127.0.0.1" 80 1
    [protocol.PatchFile.mk 0 "a.txt" "/1/a.txt" 7 true] "localhost" (by decide)
